import Mathlib

/-!
Verification of the RP-2 plug-flow-reactor core (model.py, optimize_kinetics.py,
sensitivity_analysis.py) against its natural-language specification.

The chemistry-kinetics collaborator (Cantera) and the unit-conversion
collaborator (pint) are external per the specification; they are modelled as
abstract parameters collected in a `Chem` structure.  Everything else —
the kinetics overlay, the slice-marching loop, the calibration residual
function, the experimental-data loader, and the sensitivity engine — is
translated directly from the Python source.
-/

set_option linter.unusedVariables false

namespace PFR

/-- Failure raised below the Marcher boundary (spec section 7 taxonomy). -/
inductive SimFailure where
  | simulationError : SimFailure
  | mechanismMismatch : SimFailure
deriving DecidableEq, Repr

/-- Error raised by the experimental-data loader (spec section 7 taxonomy);
models the ValueError of optimize_kinetics.load_experimental_data. -/
inductive DataFormatError where
  | missingColumns : DataFormatError
deriving DecidableEq, Repr

/-- An interface Arrhenius rate: ct.InterfaceArrheniusRate(A=·, b=·, Ea=·). -/
structure ArrheniusRate where
  A : ℝ
  b : ℝ
  Ea : ℝ

/-- A surface reaction: reactant and product stoichiometry plus its rate law
(ct.Reaction(reactants=·, products=·, rate=·)). -/
structure Reaction where
  reactants : List (String × ℝ)
  products : List (String × ℝ)
  rate : ArrheniusRate

instance : Inhabited Reaction := ⟨⟨[], [], ⟨0, 0, 0⟩⟩⟩

/-- The surface mechanism: the ordered reaction list of the ct.Interface. -/
structure Mechanism where
  reactions : List Reaction

/-- surf.modify_reaction(i, ct.Reaction(reactants=orig.reactants,
products=orig.products, rate=new_rate)): replace reaction i's rate law in
place, keeping its reactants and products (model.py lines 22-28). -/
def modifyReaction (rs : List Reaction) (i : ℕ) (r : ArrheniusRate) : List Reaction :=
  rs.set i { reactants := (rs.getD i default).reactants
             products := (rs.getD i default).products
             rate := r }

/-- One iteration of the overlay loop `for i, A, Ea in zip(range(R), As, Eas)`
(model.py line 21). -/
def ovStep (rs : List Reaction) (x : ℕ × ℝ × ℝ) : List Reaction :=
  modifyReaction rs x.1 ⟨x.2.1, 0, x.2.2⟩

/-- The Kinetics Overlay (model.py lines 15-28): split the parameter vector
as As = params[:R], Eas = params[R:], convert As ↦ 10^(As+3) and
Eas ↦ Eas·4.184·1e6, then replace each surface reaction's rate law in the
zip-ordered loop. -/
noncomputable def applyKineticParams (surf : Mechanism) (kinetic_params : List ℝ) : Mechanism :=
  let R := surf.reactions.length
  let As := (kinetic_params.take R).map (fun p => (10 : ℝ) ^ (p + 3))
  let Eas := (kinetic_params.drop R).map (fun e => e * 4.184 * 1e6)
  ⟨((List.range R).zip (As.zip Eas)).foldl ovStep surf.reactions⟩

/-- The `if kinetic_params is not None` guard of model.py line 15: when the
optional parameter vector is absent the mechanism is left untouched. -/
noncomputable def overlayStep (mech : Mechanism) : Option (List ℝ) → Mechanism
  | none => mech
  | some p => applyKineticParams mech p

/-- The overlay as a fallible computation: the source raises no exception in
the overlay block, so every application returns normally. -/
noncomputable def overlayE (mech : Mechanism) (p : List ℝ) : Except SimFailure Mechanism :=
  Except.ok (applyKineticParams mech p)

/-- Indices untouched by the overlay fold keep their original reaction. -/
theorem foldl_ovStep_getElem?_of_not_mem (l : List (ℕ × ℝ × ℝ)) (j : ℕ) :
    ∀ rs : List Reaction, (∀ x ∈ l, x.1 ≠ j) →
      (l.foldl ovStep rs)[j]? = rs[j]? := by
  induction l with
  | nil => intro rs _; rfl
  | cons hd tl ih =>
    intro rs hne
    have hhd : hd.1 ≠ j := hne hd (List.mem_cons_self hd tl)
    have htl : ∀ x ∈ tl, x.1 ≠ j := fun x hx => hne x (List.mem_cons_of_mem hd hx)
    calc ((hd :: tl).foldl ovStep rs)[j]? = (tl.foldl ovStep (ovStep rs hd))[j]? := rfl
      _ = (ovStep rs hd)[j]? := ih (ovStep rs hd) htl
      _ = rs[j]? := by
          simp only [ovStep, modifyReaction]
          exact List.getElem?_set_ne hhd

/-- The overlay fold length is preserved. -/
theorem foldl_ovStep_length (l : List (ℕ × ℝ × ℝ)) :
    ∀ rs : List Reaction, (l.foldl ovStep rs).length = rs.length := by
  induction l with
  | nil => intro rs; rfl
  | cons hd tl ih =>
    intro rs
    calc ((hd :: tl).foldl ovStep rs).length = (tl.foldl ovStep (ovStep rs hd)).length := rfl
      _ = (ovStep rs hd).length := ih (ovStep rs hd)
      _ = rs.length := by simp [ovStep, modifyReaction]

/-- An index hit exactly once by the overlay fold receives the new rate law
computed from the original reaction at that index. -/
theorem foldl_ovStep_getElem?_of_mem (l : List (ℕ × ℝ × ℝ)) (j : ℕ) (A Ea : ℝ) :
    ∀ rs : List Reaction, (j, A, Ea) ∈ l → (l.map Prod.fst).Nodup → j < rs.length →
      (l.foldl ovStep rs)[j]? =
        some { reactants := (rs.getD j default).reactants
               products := (rs.getD j default).products
               rate := ⟨A, 0, Ea⟩ } := by
  induction l with
  | nil => intro rs hmem; exact absurd hmem (List.not_mem_nil _)
  | cons hd tl ih =>
    intro rs hmem hnd hlt
    have hnd' : (tl.map Prod.fst).Nodup := (List.nodup_cons.mp hnd).2
    have hhd_not : hd.1 ∉ tl.map Prod.fst := (List.nodup_cons.mp hnd).1
    by_cases hj : hd.1 = j
    · -- the head performs the modification; the tail leaves index j alone
      have hval : hd = (j, A, Ea) := by
        rcases List.mem_cons.mp hmem with h | h
        · exact h.symm
        · exfalso
          apply hhd_not
          rw [hj]
          exact List.mem_map.mpr ⟨(j, A, Ea), h, rfl⟩
      have htl : ∀ x ∈ tl, x.1 ≠ j := by
        intro x hx hxj
        apply hhd_not
        rw [hj]
        exact List.mem_map.mpr ⟨x, hx, hxj⟩
      rw [hval]
      calc (((j, A, Ea) :: tl).foldl ovStep rs)[j]? =
          (tl.foldl ovStep (ovStep rs (j, A, Ea)))[j]? := rfl
        _ = (ovStep rs (j, A, Ea))[j]? :=
            foldl_ovStep_getElem?_of_not_mem tl j (ovStep rs (j, A, Ea)) htl
        _ = _ := by
            simp only [ovStep, modifyReaction]
            exact List.getElem?_set_self hlt
    · -- the head touches a different index: it changes neither rs[j] nor rs.length
      have hmem' : (j, A, Ea) ∈ tl := by
        rcases List.mem_cons.mp hmem with h | h
        · exact absurd (congrArg Prod.fst h.symm) hj
        · exact h
      have hlen : (ovStep rs hd).length = rs.length := by simp [ovStep, modifyReaction]
      have hgd : (ovStep rs hd).getD j default = rs.getD j default := by
        simp only [ovStep, modifyReaction, List.getD_eq_getElem?_getD]
        rw [List.getElem?_set_ne hj]
      calc ((hd :: tl).foldl ovStep rs)[j]? = (tl.foldl ovStep (ovStep rs hd))[j]? := rfl
        _ = _ := by
            rw [ih (ovStep rs hd) hmem' hnd' (hlen ▸ hlt), hgd]

/-- Elementwise description of List.zip. -/
theorem getElem?_zip_pair {α β : Type} (l₁ : List α) (l₂ : List β) (i : ℕ) :
    (l₁.zip l₂)[i]? = (l₁[i]?).bind (fun a => (l₂[i]?).map (fun b => (a, b))) := by
  induction l₁ generalizing l₂ i with
  | nil => simp
  | cons a t ih =>
    cases l₂ with
    | nil => simp
    | cons b t' =>
      cases i with
      | zero => simp
      | succ n => simpa using ih t' n

/-- C1.  With a parameter vector of length 2R, the Kinetics Overlay replaces
reaction i's rate law by an interface Arrhenius rate with A = 10^(p_i+3),
Ea = p_(R+i)·4.184·1e6 and temperature exponent 0, while reaction i keeps its
original reactants and products; with no parameter vector supplied, no
reaction is modified. -/
theorem overlay_replaces_rates_preserves_stoichiometry (surf : Mechanism) (p : List ℝ)
    (h : p.length = 2 * surf.reactions.length) :
    (∀ i, i < surf.reactions.length →
      (applyKineticParams surf p).reactions[i]? =
        some { reactants := (surf.reactions.getD i default).reactants
               products := (surf.reactions.getD i default).products
               rate := ⟨(10 : ℝ) ^ (p.getD i 0 + 3), 0,
                        p.getD (surf.reactions.length + i) 0 * 4.184 * 1e6⟩ })
    ∧ overlayStep surf none = surf := by
  constructor
  · intro i hi
    set R := surf.reactions.length with hR
    have hiP : i < p.length := by omega
    have hRiP : R + i < p.length := by omega
    set As := (p.take R).map (fun q => (10 : ℝ) ^ (q + 3)) with hAs
    set Eas := (p.drop R).map (fun e => e * 4.184 * 1e6) with hEas
    have hAsLen : As.length = R := by
      simp [hAs, List.length_take, h]; omega
    have hEasLen : Eas.length = R := by
      simp [hEas, List.length_drop, h]; omega
    have hAsi : As[i]? = some ((10 : ℝ) ^ (p.getD i 0 + 3)) := by
      rw [hAs, List.getElem?_map, List.getElem?_take_of_lt hi,
        List.getElem?_eq_getElem hiP]
      simp [List.getD_eq_getElem?_getD, List.getElem?_eq_getElem hiP]
    have hEasi : Eas[i]? = some (p.getD (R + i) 0 * 4.184 * 1e6) := by
      rw [hEas, List.getElem?_map, List.getElem?_drop,
        List.getElem?_eq_getElem hRiP]
      simp [List.getD_eq_getElem?_getD, List.getElem?_eq_getElem hRiP]
    have hzipi : ((List.range R).zip (As.zip Eas))[i]? =
        some (i, (10 : ℝ) ^ (p.getD i 0 + 3), p.getD (R + i) 0 * 4.184 * 1e6) := by
      rw [getElem?_zip_pair, List.getElem?_range hi, getElem?_zip_pair, hAsi, hEasi]
      rfl
    have hmem : (i, (10 : ℝ) ^ (p.getD i 0 + 3), p.getD (R + i) 0 * 4.184 * 1e6) ∈
        (List.range R).zip (As.zip Eas) := List.getElem?_mem hzipi
    have hnodup : (((List.range R).zip (As.zip Eas)).map Prod.fst).Nodup := by
      have hle : (List.range R).length ≤ (As.zip Eas).length := by
        simp [List.length_zip, hAsLen, hEasLen]
      rw [List.map_fst_zip _ _ (by simpa using hle)]
      exact List.nodup_range R
    have := foldl_ovStep_getElem?_of_mem ((List.range R).zip (As.zip Eas)) i
      ((10 : ℝ) ^ (p.getD i 0 + 3)) (p.getD (R + i) 0 * 4.184 * 1e6)
      surf.reactions hmem hnodup hi
    simpa [applyKineticParams, hAs, hEas, hR] using this
  · rfl

/-- A concrete one-reaction surface mechanism used by concrete instances. -/
noncomputable def mech1 : Mechanism :=
  ⟨[⟨[("RP2", 1)], [("C(B)", 1)], ⟨7, 1, 9⟩⟩]⟩

/-- C1 witness: the one-reaction mechanism with the length-2 parameter vector
[2, 5] gets rate A = 10^5, b = 0, Ea = 5·4.184·1e6 on reaction 0, with the
original stoichiometry kept, and the absent vector changes nothing. -/
theorem overlay_replaces_rates_witness :
    (applyKineticParams mech1 [2, 5]).reactions[0]? =
      some { reactants := [("RP2", (1 : ℝ))]
             products := [("C(B)", (1 : ℝ))]
             rate := ⟨(10 : ℝ) ^ (([(2 : ℝ), 5].getD 0 0) + 3), 0,
                      ([(2 : ℝ), 5].getD (1 + 0) 0) * 4.184 * 1e6⟩ }
    ∧ overlayStep mech1 none = mech1 := by
  have h := overlay_replaces_rates_preserves_stoichiometry mech1 [2, 5] (by simp [mech1])
  refine ⟨?_, h.2⟩
  have h0 := h.1 0 (by simp [mech1])
  simpa [mech1] using h0

/-- C2 counterexample: for the one-reaction mechanism (R = 1) and the
length-1 parameter vector [5] (so 1 ≠ 2R), applying the Kinetics Overlay does
NOT fail with a MechanismMismatchError: the source performs no length check
and raises nothing, so the claimed failure never happens. -/
theorem overlay_mismatch_counterexample :
    overlayE mech1 [5] ≠ Except.error SimFailure.mechanismMismatch
    ∧ [(5 : ℝ)].length ≠ 2 * mech1.reactions.length := by
  refine ⟨fun h => Except.noConfusion h, ?_⟩
  simp [mech1]

/-- C2 amended.  For a parameter vector whose length L differs from 2R the
overlay does not fail at all: it returns normally, silently modifying only the
first min(R, L−R) reactions (zip truncation), and every reaction with index
≥ min(R, L−R) is left unmutated. -/
theorem overlay_mismatch_amended (surf : Mechanism) (p : List ℝ)
    (h : p.length ≠ 2 * surf.reactions.length) :
    overlayE surf p = Except.ok (applyKineticParams surf p)
    ∧ ∀ j, min surf.reactions.length (p.length - surf.reactions.length) ≤ j →
        (applyKineticParams surf p).reactions[j]? = surf.reactions[j]? := by
  refine ⟨rfl, ?_⟩
  intro j hj
  have key : ∀ x ∈ (List.range surf.reactions.length).zip
      (((p.take surf.reactions.length).map (fun q => (10 : ℝ) ^ (q + 3))).zip
        ((p.drop surf.reactions.length).map (fun e => e * 4.184 * 1e6))), x.1 ≠ j := by
    intro x hx
    obtain ⟨i, hi, hxi⟩ := List.mem_iff_getElem.mp hx
    have hlen : ((List.range surf.reactions.length).zip
        (((p.take surf.reactions.length).map (fun q => (10 : ℝ) ^ (q + 3))).zip
          ((p.drop surf.reactions.length).map (fun e => e * 4.184 * 1e6)))).length =
        min surf.reactions.length
          (min (min surf.reactions.length p.length) (p.length - surf.reactions.length)) := by
      simp [List.length_zip]
    have h1 : ((List.range surf.reactions.length).zip
        (((p.take surf.reactions.length).map (fun q => (10 : ℝ) ^ (q + 3))).zip
          ((p.drop surf.reactions.length).map (fun e => e * 4.184 * 1e6))))[i]? = some x := by
      rw [List.getElem?_eq_getElem hi, hxi]
    have hiR : i < surf.reactions.length := by rw [hlen] at hi; omega
    rw [getElem?_zip_pair, List.getElem?_range hiR] at h1
    have hx1 : x.1 = i := by
      cases h2 : (((p.take surf.reactions.length).map (fun q => (10 : ℝ) ^ (q + 3))).zip
          ((p.drop surf.reactions.length).map (fun e => e * 4.184 * 1e6)))[i]? with
      | none => rw [h2] at h1; exact Option.noConfusion h1
      | some b =>
        rw [h2] at h1
        rw [← Option.some_inj.mp h1]
    rw [hx1]
    rw [hlen] at hi
    omega
  simpa [applyKineticParams] using
    foldl_ovStep_getElem?_of_not_mem _ j surf.reactions key

/-- C2 witness: the amended statement at the one-reaction mechanism and the
length-3 vector [5, 5, 5]: the application returns normally and reaction
indices ≥ min(1, 3−1) = 1 are untouched. -/
theorem overlay_mismatch_witness :
    overlayE mech1 [5, 5, 5] = Except.ok (applyKineticParams mech1 [5, 5, 5])
    ∧ (applyKineticParams mech1 [5, 5, 5]).reactions[1]? = mech1.reactions[1]? := by
  have h := overlay_mismatch_amended mech1 [5, 5, 5] (by simp [mech1])
  exact ⟨h.1, h.2 1 (by simp [mech1])⟩

/-- A {value, units} pair from the YAML config. -/
structure Quantity where
  value : ℝ
  units : String

/-- A {value, units} pair whose value is an integer (number_of_slices). -/
structure NatQuantity where
  value : ℕ
  units : String

/-- A {value, units} pair whose value is a composition string. -/
structure StrQuantity where
  value : String
  units : String

/-- The validated config record returned by input_parser.get_inputs: the ten
required keys of the YAML config. -/
structure Inputs where
  length : Quantity
  diameter : Quantity
  power : Quantity
  volumetric_flow_rate : Quantity
  T0 : Quantity
  P0 : Quantity
  number_of_slices : NatQuantity
  inlet_composition : StrQuantity
  initial_coverages : StrQuantity
  reference_temperature : Quantity

/-- The external chemistry/unit collaborators (Cantera and pint), abstracted
over a reactor-network state type S: to_si is pint's
to_base_units().magnitude; density_at is gas.density_mass after
gas.TPX = (T, P, X); assemble builds the reactor-network state from the
(possibly overlaid) surface mechanism, the inlet temperature/pressure, the
composition string, the coverage string, the slice volume, the reacting wall
area, the per-slice wall heat and the mass flow rate; advance performs
upstream.syncState() + sim.reinitialize() + sim.advance_to_steady_state(),
which either converges or raises; dep and temp read the recorded net
production rate of the deposited solid species C(B) and the gas temperature
from a state. -/
structure Chem (S : Type) where
  to_si : Quantity → ℝ
  density_at : ℝ → ℝ → String → ℝ
  assemble : Mechanism → ℝ → ℝ → String → String → ℝ → ℝ → ℝ → ℝ → S
  advance : S → Except SimFailure S
  dep : S → ℝ
  temp : S → ℝ

/-- The slice loop of model.py lines 87-96: at slice index ri, first record
the current state tagged z = ri·dz, then advance the reactor to its steady
state; a solver failure aborts the whole run. -/
def march {S : Type} (advance : S → Except SimFailure S) (dz : ℝ) :
    ℕ → ℕ → S → Except SimFailure (List (ℝ × S))
  | 0, _, _ => Except.ok []
  | n + 1, ri, s =>
    match advance s with
    | Except.error e => Except.error e
    | Except.ok s2 =>
      match march advance dz n (ri + 1) s2 with
      | Except.error e => Except.error e
      | Except.ok rest => Except.ok (((ri : ℝ) * dz, s) :: rest)

/-- model.py simulate: optionally apply the kinetics overlay, normalize the
configured quantities to SI, fix the reference temperature to 300 K, the
inlet composition to RP2:1.0 and the initial coverages to CC(s):1.0,
assemble the reactor network and march the N slices.  The trajectory is the
single return value. -/
noncomputable def simulate {S : Type} (C : Chem S) (inputs : Inputs) (mech : Mechanism)
    (kinetic_params : Option (List ℝ)) : Except SimFailure (List (ℝ × S)) :=
  let surf := overlayStep mech kinetic_params
  let N := inputs.number_of_slices.value
  let d := C.to_si inputs.diameter
  let l := C.to_si inputs.length
  let heat_added := C.to_si inputs.power
  let flow_area := 0.25 * Real.pi * d * d
  let wall_area := Real.pi * d * l
  let heat_per_length := heat_added / l
  let dz := l / N
  let T_ref : Quantity := ⟨300, "K"⟩
  let X0 := "RP2:1.0"
  let density_ref := C.density_at (C.to_si T_ref) (C.to_si inputs.P0) X0
  let mass_flow_rate := density_ref * C.to_si inputs.volumetric_flow_rate
  let s0 := C.assemble surf (C.to_si inputs.T0) (C.to_si inputs.P0) X0 "CC(s):1.0"
    (flow_area * dz) (dz * Real.pi * d) (heat_per_length * dz) mass_flow_rate
  march C.advance dz N 0 s0

/-- Structure of a successful march: it yields one record per slice, record k
is tagged z = (ri+k)·dz, the first record holds the entry state unadvanced,
and each record's state advances to its successor record's state. -/
theorem march_ok_spec {S : Type} (advance : S → Except SimFailure S) (dz : ℝ) :
    ∀ (n ri : ℕ) (s : S) (tr : List (ℝ × S)), march advance dz n ri s = Except.ok tr →
      tr.length = n
      ∧ (∀ k, k < n → ∃ sk, tr[k]? = some (((ri + k : ℕ) : ℝ) * dz, sk))
      ∧ (0 < n → ∃ rest, tr = ((ri : ℝ) * dz, s) :: rest)
      ∧ (∀ k a b, tr[k]? = some a → tr[k + 1]? = some b →
          advance a.2 = Except.ok b.2) := by
  intro n
  induction n with
  | zero =>
    intro ri s tr h
    have htr : tr = [] := by
      simpa [march] using h.symm
    subst htr
    refine ⟨rfl, by omega, by omega, ?_⟩
    intro k a b ha
    simp at ha
  | succ n ih =>
    intro ri s tr h
    rw [march] at h
    cases hadv : advance s with
    | error e => rw [hadv] at h; exact Except.noConfusion h
    | ok s2 =>
      rw [hadv] at h
      have h2 : (match march advance dz n (ri + 1) s2 with
          | Except.error e => Except.error e
          | Except.ok rest => Except.ok (((ri : ℝ) * dz, s) :: rest)) = Except.ok tr := h
      cases hrec : march advance dz n (ri + 1) s2 with
      | error e => rw [hrec] at h2; exact Except.noConfusion h2
      | ok rest =>
        rw [hrec] at h2
        have htr : ((ri : ℝ) * dz, s) :: rest = tr := Except.ok.inj h2
        obtain ⟨ihlen, ihz, ihhead, ihchain⟩ := ih (ri + 1) s2 rest hrec
        subst htr
        refine ⟨by simp [ihlen], ?_, fun _ => ⟨rest, rfl⟩, ?_⟩
        · intro k hk
          cases k with
          | zero => exact ⟨s, by simp⟩
          | succ m =>
            obtain ⟨sk, hsk⟩ := ihz m (by omega)
            refine ⟨sk, ?_⟩
            have harith : ri + 1 + m = ri + (m + 1) := by omega
            rw [List.getElem?_cons_succ, hsk, harith]
        · intro k a b ha hb
          cases k with
          | zero =>
            have ha' : ((ri : ℝ) * dz, s) = a := by
              rw [List.getElem?_cons_zero] at ha
              exact Option.some_inj.mp ha
            rw [List.getElem?_cons_succ] at hb
            cases n with
            | zero =>
              have : rest = [] := List.length_eq_zero.mp ihlen
              subst this
              simp at hb
            | succ n2 =>
              obtain ⟨rest2, hrest2⟩ := ihhead (by omega)
              rw [hrest2, List.getElem?_cons_zero] at hb
              have hb' : (((ri + 1 : ℕ) : ℝ) * dz, s2) = b := Option.some_inj.mp hb
              rw [← ha', ← hb']
              exact hadv
          | succ m =>
            rw [List.getElem?_cons_succ] at ha hb
            exact ihchain m a b ha hb

/-- C3.  A completed forward simulation with N ≥ 1 slices and positive tube
length produces exactly N slice records; record i is tagged z = i·(L/N) and
holds the state before slice i was advanced (its successor record's state is
its advance result), so z is strictly increasing and the first record has
z = 0. -/
theorem simulate_trajectory_spec {S : Type} (C : Chem S) (inputs : Inputs) (mech : Mechanism)
    (kp : Option (List ℝ)) (tr : List (ℝ × S))
    (hN : 1 ≤ inputs.number_of_slices.value)
    (hL : 0 < C.to_si inputs.length)
    (h : simulate C inputs mech kp = Except.ok tr) :
    tr.length = inputs.number_of_slices.value
    ∧ (∀ k, k < inputs.number_of_slices.value → ∃ sk, tr[k]? =
        some ((k : ℝ) * (C.to_si inputs.length / inputs.number_of_slices.value), sk))
    ∧ (tr.map Prod.fst).Pairwise (· < ·)
    ∧ (tr.map Prod.fst)[0]? = some 0
    ∧ (∀ k a b, tr[k]? = some a → tr[k + 1]? = some b →
        C.advance a.2 = Except.ok b.2) := by
  simp only [simulate] at h
  obtain ⟨hlen, hz, hhead, hchain⟩ :=
    march_ok_spec C.advance _ inputs.number_of_slices.value 0 _ tr h
  have hdz : 0 < C.to_si inputs.length / (inputs.number_of_slices.value : ℝ) :=
    div_pos hL (by exact_mod_cast Nat.lt_of_lt_of_le Nat.zero_lt_one hN)
  have hz' : ∀ k, k < inputs.number_of_slices.value → ∃ sk, tr[k]? =
      some ((k : ℝ) * (C.to_si inputs.length / inputs.number_of_slices.value), sk) := by
    intro k hk
    obtain ⟨sk, hsk⟩ := hz k hk
    exact ⟨sk, by simpa using hsk⟩
  refine ⟨hlen, hz', ?_, ?_, hchain⟩
  · rw [List.pairwise_iff_getElem]
    intro i j hi hj hij
    have hi' : i < tr.length := by simpa using hi
    have hj' : j < tr.length := by simpa using hj
    obtain ⟨si, hsi⟩ := hz' i (by omega)
    obtain ⟨sj, hsj⟩ := hz' j (by omega)
    rw [List.getElem?_eq_getElem hi'] at hsi
    rw [List.getElem?_eq_getElem hj'] at hsj
    simp only [List.getElem_map]
    rw [Option.some_inj.mp hsi, Option.some_inj.mp hsj]
    exact mul_lt_mul_of_pos_right (by exact_mod_cast hij) hdz
  · obtain ⟨s0, hs0⟩ := hz' 0 (by omega)
    rw [List.getElem?_map, hs0]
    simp

/-- A trivial chemistry collaborator on the unit state type: to_si reads the
raw value, density is 1, assembly is trivial and every steady-state solve
succeeds. -/
noncomputable def chemUnit : Chem Unit where
  to_si := fun q => q.value
  density_at := fun _ _ _ => 1
  assemble := fun _ _ _ _ _ _ _ _ _ => ()
  advance := fun _ => Except.ok ()
  dep := fun _ => 0
  temp := fun _ => 0

/-- A concrete validated config: a 2 m tube split into N = 2 slices. -/
noncomputable def inputs2 : Inputs where
  length := ⟨2, "m"⟩
  diameter := ⟨1, "m"⟩
  power := ⟨1, "W"⟩
  volumetric_flow_rate := ⟨1, "m^3/s"⟩
  T0 := ⟨300, "K"⟩
  P0 := ⟨100000, "Pa"⟩
  number_of_slices := ⟨2, ""⟩
  inlet_composition := ⟨"RP2:1.0", ""⟩
  initial_coverages := ⟨"CC(s):1.0", ""⟩
  reference_temperature := ⟨300, "K"⟩

/-- C3 witness: the trivial collaborator on the 2-slice 2 m config yields the
trajectory [(0, ()), (1, ())]: two records, z strictly increasing from 0. -/
theorem simulate_trajectory_witness :
    simulate chemUnit inputs2 mech1 none = Except.ok [((0 : ℝ), ()), ((1 : ℝ), ())]
    ∧ ([((0 : ℝ), ()), ((1 : ℝ), ())] : List (ℝ × Unit)).length =
        inputs2.number_of_slices.value
    ∧ (([((0 : ℝ), ()), ((1 : ℝ), ())] : List (ℝ × Unit)).map Prod.fst).Pairwise (· < ·)
    ∧ (([((0 : ℝ), ()), ((1 : ℝ), ())] : List (ℝ × Unit)).map Prod.fst)[0]? = some 0 := by
  have hsim : simulate chemUnit inputs2 mech1 none =
      Except.ok [((0 : ℝ), ()), ((1 : ℝ), ())] := by
    norm_num [simulate, march, chemUnit, inputs2, overlayStep]
  have h := simulate_trajectory_spec chemUnit inputs2 mech1 none _
    (by norm_num [inputs2]) (by norm_num [chemUnit, inputs2]) hsim
  exact ⟨hsim, h.1, h.2.2.1, h.2.2.2.1⟩

/-- C8.  simulate reads only length, diameter, power, volumetric_flow_rate,
T0, P0 and number_of_slices from the config; the inlet composition, the
initial coverages and the reference temperature are hard-coded inside
simulate (RP2:1.0, CC(s):1.0, 300 K), so two configs that differ only in
those three keys produce identical results. -/
theorem simulate_ignores_composition_keys {S : Type} (C : Chem S) (mech : Mechanism)
    (kp : Option (List ℝ)) (i1 i2 : Inputs)
    (h1 : i1.length = i2.length) (h2 : i1.diameter = i2.diameter)
    (h3 : i1.power = i2.power) (h4 : i1.volumetric_flow_rate = i2.volumetric_flow_rate)
    (h5 : i1.T0 = i2.T0) (h6 : i1.P0 = i2.P0)
    (h7 : i1.number_of_slices = i2.number_of_slices) :
    simulate C i1 mech kp = simulate C i2 mech kp := by
  simp only [simulate, h1, h2, h3, h4, h5, h6, h7]

/-- The 2-slice config with different inlet composition, initial coverages
and reference temperature. -/
noncomputable def inputs2b : Inputs :=
  { inputs2 with
    inlet_composition := ⟨"N2:1.0", ""⟩
    initial_coverages := ⟨"X(s):1.0", ""⟩
    reference_temperature := ⟨500, "K"⟩ }

/-- C8 witness: changing only inlet_composition, initial_coverages and
reference_temperature leaves the simulation result unchanged. -/
theorem simulate_ignores_composition_keys_witness :
    simulate chemUnit inputs2 mech1 none = simulate chemUnit inputs2b mech1 none :=
  simulate_ignores_composition_keys chemUnit mech1 none inputs2 inputs2b
    rfl rfl rfl rfl rfl rfl rfl

/-- Python sequence unpacking `a, b = xs`: it succeeds exactly when the
sequence has length 2 and yields its two elements in order. -/
def unpack2 {α : Type} : List α → Option (α × α)
  | [a, b] => some (a, b)
  | _ => none

/-- run.py line 41, `results, ebal = simulate(inputs, mechanism_path)`: the
two-target destructuring applied to simulate's single return value. -/
noncomputable def runDriverUnpack {S : Type} (C : Chem S) (inputs : Inputs)
    (mech : Mechanism) : Option ((ℝ × S) × (ℝ × S)) :=
  match simulate C inputs mech none with
  | Except.error _ => none
  | Except.ok results => unpack2 results

/-- unpack2 succeeds exactly on length-2 lists. -/
theorem unpack2_isSome_iff {α : Type} (l : List α) :
    (unpack2 l).isSome = true ↔ l.length = 2 := by
  match l with
  | [] => simp [unpack2]
  | [a] => simp [unpack2]
  | [a, b] => simp [unpack2]
  | a :: b :: c :: t => simp [unpack2]

/-- C7.  simulate returns the trajectory alone (the energy-balance ratio is
computed and discarded), so the two-value destructuring done by the forward
driver succeeds exactly when the trajectory has length 2, i.e. when the
simulation ran with slice count N = 2, and fails for every other N. -/
theorem simulate_single_value_unpack {S : Type} (C : Chem S) (inputs : Inputs)
    (mech : Mechanism) (tr : List (ℝ × S))
    (h : simulate C inputs mech none = Except.ok tr) :
    (runDriverUnpack C inputs mech).isSome = true ↔
      inputs.number_of_slices.value = 2 := by
  have hlen : tr.length = inputs.number_of_slices.value := by
    simp only [simulate] at h
    exact (march_ok_spec C.advance _ inputs.number_of_slices.value 0 _ tr h).1
  have hrun : runDriverUnpack C inputs mech = unpack2 tr := by
    rw [runDriverUnpack, h]
  rw [hrun, unpack2_isSome_iff, hlen]

/-- C7 witness: on the 2-slice config the destructuring succeeds. -/
theorem simulate_single_value_unpack_witness :
    (runDriverUnpack chemUnit inputs2 mech1).isSome = true := by
  have hsim : simulate chemUnit inputs2 mech1 none =
      Except.ok [((0 : ℝ), ()), ((1 : ℝ), ())] := by
    norm_num [simulate, march, chemUnit, inputs2, overlayStep]
  exact (simulate_single_value_unpack chemUnit inputs2 mech1 _ hsim).mpr rfl

/-- np.interp(x, xp, fp) on the paired points: below the first node it clamps
to the first value, above the last node to the last value, and between two
consecutive nodes it interpolates linearly. -/
noncomputable def interp1 (x : ℝ) : List (ℝ × ℝ) → ℝ
  | [] => 0
  | [p] => p.2
  | p :: q :: rest =>
    if x ≤ p.1 then p.2
    else if x < q.1 then p.2 + (q.2 - p.2) * (x - p.1) / (q.1 - p.1)
    else interp1 x (q :: rest)

/-- optimize_kinetics.objective_function: run the Marcher with the overlay
applied to the trial vector; on success interpolate the simulated deposition
rate onto the experimental z grid and return the residual (shaped by
objective_type); on any simulation failure return the constant 1e6 penalty
vector with the shape of the experimental data. -/
noncomputable def objective_function {S : Type} (C : Chem S) (params : List ℝ)
    (inputs : Inputs) (mech : Mechanism) (exp_z exp_dep : List ℝ)
    (objective_type : String) : List ℝ :=
  match simulate C inputs mech (some params) with
  | Except.error _ => List.replicate exp_dep.length 1e6
  | Except.ok results =>
    let sim_dep := results.map (fun r => C.dep r.2)
    let sim_dep_interp := exp_z.map (fun x => interp1 x ((results.map Prod.fst).zip sim_dep))
    let residuals := (sim_dep_interp.zip exp_dep).map (fun p => p.1 - p.2)
    if objective_type = "l2" then residuals
    else if objective_type = "rmse" then
      List.replicate residuals.length
        (Real.sqrt ((residuals.map (fun r => r ^ 2)).sum / residuals.length))
    else if objective_type = "mae" then residuals.map (fun r => |r|)
    else residuals

/-- C4.  Any simulation failure during an evaluation is converted into the
constant 1e6 penalty vector shaped like the experimental data — the
exception never reaches the optimizer (objective_function is total) — and
a successful l2 evaluation returns elementwise interpolated-simulated minus
experimental deposition. -/
theorem objective_function_penalty_and_l2 {S : Type} (C : Chem S) (params : List ℝ)
    (inputs : Inputs) (mech : Mechanism) (exp_z exp_dep : List ℝ) :
    (∀ e, simulate C inputs mech (some params) = Except.error e →
      objective_function C params inputs mech exp_z exp_dep "l2" =
        List.replicate exp_dep.length 1e6)
    ∧ (∀ tr, simulate C inputs mech (some params) = Except.ok tr →
      objective_function C params inputs mech exp_z exp_dep "l2" =
        ((exp_z.map (fun x => interp1 x
            ((tr.map Prod.fst).zip (tr.map (fun r => C.dep r.2))))).zip exp_dep).map
          (fun p => p.1 - p.2)) := by
  constructor
  · intro e he
    simp only [objective_function, he]
  · intro tr htr
    simp only [objective_function, htr]
    simp

/-- The trivial collaborator whose steady-state solver always fails. -/
noncomputable def chemFail : Chem Unit :=
  { chemUnit with advance := fun _ => Except.error SimFailure.simulationError }

/-- C4 witness: with the always-failing solver the objective returns the
1e6 penalty vector of the experimental shape, and with the always-converging
solver the l2 objective returns the interpolated-minus-experimental
residual. -/
theorem objective_function_penalty_witness :
    objective_function chemFail [10, 50] inputs2 mech1 [0, 1] [3, 4] "l2" =
      List.replicate 2 1e6
    ∧ objective_function chemUnit [10, 50] inputs2 mech1 [0, 1] [3, 4] "l2" =
      ((([(0 : ℝ), 1].map (fun x => interp1 x
          (([((0 : ℝ), ()), ((1 : ℝ), ())].map Prod.fst).zip
            ([((0 : ℝ), ()), ((1 : ℝ), ())].map (fun r => chemUnit.dep r.2))))).zip
        [(3 : ℝ), 4]).map (fun p => p.1 - p.2)) := by
  constructor
  · exact (objective_function_penalty_and_l2 chemFail [10, 50] inputs2 mech1
      [0, 1] [3, 4]).1 SimFailure.simulationError
      (by norm_num [simulate, march, chemFail, chemUnit, inputs2, overlayStep])
  · exact (objective_function_penalty_and_l2 chemUnit [10, 50] inputs2 mech1
      [0, 1] [3, 4]).2 [((0 : ℝ), ()), ((1 : ℝ), ())]
      (by norm_num [simulate, march, chemUnit, inputs2, overlayStep])

/-- Above a node interval's right end, interp1 moves on to the next
interval. -/
theorem interp1_skip (x : ℝ) (p q : ℝ × ℝ) (rest : List (ℝ × ℝ))
    (h1 : p.1 < q.1) (h2 : q.1 ≤ x) :
    interp1 x (p :: q :: rest) = interp1 x (q :: rest) := by
  rw [interp1, if_neg (by linarith), if_neg (by linarith)]

/-- Exactness of piecewise-linear interpolation at the nodes: evaluating the
interpolant of (xs, ys) at the xs grid returns ys when xs is strictly
increasing and the lists have equal length. -/
theorem interp1_nodes : ∀ (xs ys : List ℝ), xs.Pairwise (· < ·) →
    xs.length = ys.length → xs.map (fun x => interp1 x (xs.zip ys)) = ys := by
  intro xs
  induction xs with
  | nil =>
    intro ys _ hlen
    have : ys = [] := by simpa using (List.length_eq_zero.mp hlen.symm)
    subst this
    rfl
  | cons x0 xtl ih =>
    intro ys hpw hlen
    cases ys with
    | nil => simp at hlen
    | cons y0 ytl =>
      cases xtl with
      | nil =>
        cases ytl with
        | nil => simp [interp1]
        | cons y1 yr => simp at hlen
      | cons x1 xr =>
        cases ytl with
        | nil => simp at hlen
        | cons y1 yr =>
          have hx01 : x0 < x1 := (List.pairwise_cons.mp hpw).1 x1 (List.mem_cons_self x1 xr)
          have hpw' : (x1 :: xr).Pairwise (· < ·) := (List.pairwise_cons.mp hpw).2
          have hlen' : (x1 :: xr).length = (y1 :: yr).length := by simpa using hlen
          have hhead : interp1 x0 ((x0 :: x1 :: xr).zip (y0 :: y1 :: yr)) = y0 := by
            simp only [List.zip_cons_cons]
            rw [interp1, if_pos le_rfl]
          have htail : (x1 :: xr).map
              (fun x => interp1 x ((x0 :: x1 :: xr).zip (y0 :: y1 :: yr))) =
              (x1 :: xr).map (fun x => interp1 x ((x1 :: xr).zip (y1 :: yr))) := by
            apply List.map_congr_left
            intro a ha
            have hx1a : x1 ≤ a := by
              rcases List.mem_cons.mp ha with h | h
              · exact h.symm.le
              · exact ((List.pairwise_cons.mp hpw').1 a h).le
            simp only [List.zip_cons_cons]
            exact interp1_skip a (x0, y0) (x1, y1) (xr.zip yr) hx01 hx1a
          rw [List.map_cons, hhead, htail, ih (y1 :: yr) hpw' hlen']

/-- C9.  When the experimental z grid coincides elementwise with the
(strictly increasing) simulated z grid, the interpolation inside the
calibration residual is exact at every node, so the l2 residual equals
simulated deposition minus experimental deposition with zero interpolation
error. -/
theorem residual_exact_on_shared_grid {S : Type} (C : Chem S) (params : List ℝ)
    (inputs : Inputs) (mech : Mechanism) (exp_dep : List ℝ) (tr : List (ℝ × S))
    (h : simulate C inputs mech (some params) = Except.ok tr)
    (hmono : (tr.map Prod.fst).Pairwise (· < ·)) :
    objective_function C params inputs mech (tr.map Prod.fst) exp_dep "l2" =
      ((tr.map (fun r => C.dep r.2)).zip exp_dep).map (fun p => p.1 - p.2) := by
  simp only [objective_function, h]
  have hnodes := interp1_nodes (tr.map Prod.fst) (tr.map (fun r => C.dep r.2))
    hmono (by simp)
  simp [hnodes]

/-- C9 witness: on the shared grid [0, 1] the residual is exactly simulated
minus experimental deposition. -/
theorem residual_exact_on_shared_grid_witness :
    objective_function chemUnit [10, 50] inputs2 mech1
        (([((0 : ℝ), ()), ((1 : ℝ), ())] : List (ℝ × Unit)).map Prod.fst) [3, 4] "l2" =
      ((([((0 : ℝ), ()), ((1 : ℝ), ())] : List (ℝ × Unit)).map
          (fun r => chemUnit.dep r.2)).zip [(3 : ℝ), 4]).map (fun p => p.1 - p.2) := by
  have hsim : simulate chemUnit inputs2 mech1 (some [10, 50]) =
      Except.ok [((0 : ℝ), ()), ((1 : ℝ), ())] := by
    norm_num [simulate, march, chemUnit, inputs2, overlayStep]
  exact residual_exact_on_shared_grid chemUnit [10, 50] inputs2 mech1 [3, 4]
    [((0 : ℝ), ()), ((1 : ℝ), ())] hsim (by norm_num)

/-- Column lookup df[name]: the values of the first column carrying the
name. -/
def getColumn (df : List (String × List ℝ)) (name : String) : List ℝ :=
  ((df.find? (fun c => c.1 == name)).map Prod.snd).getD []

/-- optimize_kinetics.load_experimental_data: read the table and return the
z and deposition_rate columns, failing when either column is absent. -/
def load_experimental_data (df : List (String × List ℝ)) :
    Except DataFormatError (List ℝ × List ℝ) :=
  if df.any (fun c => c.1 == "z") && df.any (fun c => c.1 == "deposition_rate") then
    Except.ok (getColumn df "z", getColumn df "deposition_rate")
  else Except.error DataFormatError.missingColumns

/-- C10.  On the table z = [0.0, 0.1], deposition_rate = [0.0, 1e-6] the
loader returns exactly those two arrays, and on any table missing either
column it fails with the data-format error. -/
theorem load_experimental_data_spec :
    load_experimental_data [("z", [0, 0.1]), ("deposition_rate", [0, 1e-6])] =
      Except.ok ([(0 : ℝ), 0.1], [(0 : ℝ), 1e-6])
    ∧ (∀ df : List (String × List ℝ),
        (df.any (fun c => c.1 == "z") = false ∨
          df.any (fun c => c.1 == "deposition_rate") = false) →
        load_experimental_data df = Except.error DataFormatError.missingColumns) := by
  constructor
  · rfl
  · intro df hdf
    rw [load_experimental_data]
    rcases hdf with h | h <;> rw [h] <;> simp

/-- C10 witness: a table carrying only the deposition_rate column is
rejected with the data-format error. -/
theorem load_experimental_data_witness :
    load_experimental_data [("deposition_rate", [(0 : ℝ)])] =
      Except.error DataFormatError.missingColumns :=
  load_experimental_data_spec.2 [("deposition_rate", [(0 : ℝ)])] (Or.inl rfl)

/-- One sensitivity record (sensitivity_analysis.compute_sensitivity return
value).  Because the two-target destructuring `results_base, _ = simulate(…)`
binds only the first slice record of each trajectory, the deposition and
temperature sensitivities and the z tag are scalars taken from slice 0. -/
structure SensRecord where
  param_idx : ℕ
  param_value : ℝ
  deposition_sensitivity : ℝ
  temperature_sensitivity : ℝ
  z : ℝ

/-- sensitivity_analysis.compute_sensitivity, instrumented with the number of
simulate invocations performed: run and destructure the baseline, perturb
parameter j multiplicatively by ±delta, run and destructure the plus and
minus simulations, and form the central-difference quotients.  A simulation
failure or a failed destructuring aborts with no record; the counter records
the simulate calls made up to that point. -/
noncomputable def compute_sensitivityT {S : Type} (C : Chem S) (inputs : Inputs)
    (mech : Mechanism) (base_params : List ℝ) (param_idx : ℕ) (delta : ℝ) :
    Option SensRecord × ℕ :=
  match (simulate C inputs mech (some base_params)).toOption.bind unpack2 with
  | none => (none, 1)
  | some (results_base, _) =>
    let params_plus := base_params.set param_idx (base_params.getD param_idx 0 * (1 + delta))
    let params_minus := base_params.set param_idx (base_params.getD param_idx 0 * (1 - delta))
    match (simulate C inputs mech (some params_plus)).toOption.bind unpack2 with
    | none => (none, 2)
    | some (results_plus, _) =>
      match (simulate C inputs mech (some params_minus)).toOption.bind unpack2 with
      | none => (none, 3)
      | some (results_minus, _) =>
        (some { param_idx := param_idx
                param_value := base_params.getD param_idx 0
                deposition_sensitivity := (C.dep results_plus.2 - C.dep results_minus.2) /
                  (2 * delta * base_params.getD param_idx 0)
                temperature_sensitivity := (C.temp results_plus.2 - C.temp results_minus.2) /
                  (2 * delta * base_params.getD param_idx 0)
                z := results_base.1 }, 3)

/-- The record computed by compute_sensitivity (its simulate-call counter
dropped). -/
noncomputable def compute_sensitivity {S : Type} (C : Chem S) (inputs : Inputs)
    (mech : Mechanism) (base_params : List ℝ) (param_idx : ℕ) (delta : ℝ) :
    Option SensRecord :=
  (compute_sensitivityT C inputs mech base_params param_idx delta).1

/-- The full sensitivity report (run_sensitivity_analysis return value). -/
structure SensReport where
  baseline_params : List ℝ
  delta : ℝ
  n_reactions : ℕ
  sensitivities : List SensRecord

/-- The `for i in range(2·n_reactions)` loop of run_sensitivity_analysis,
with the accumulated simulate-call counter; an exception in any iteration
aborts the loop. -/
noncomputable def sens_loopT {S : Type} (C : Chem S) (inputs : Inputs) (mech : Mechanism)
    (base_params : List ℝ) (delta : ℝ) : List ℕ → Option (List SensRecord) × ℕ
  | [] => (some [], 0)
  | i :: rest =>
    match compute_sensitivityT C inputs mech base_params i delta with
    | (none, c) => (none, c)
    | (some r, c) =>
      match sens_loopT C inputs mech base_params delta rest with
      | (orest, c2) => (orest.map (fun l => r :: l), c + c2)

/-- sensitivity_analysis.run_sensitivity_analysis with the simulate-call
counter: when the caller supplies no reaction count, one destructured probe
simulation is run and the count falls back to the constant 4; then every
parameter index in range(2·n_reactions) gets a compute_sensitivity call. -/
noncomputable def run_sensitivity_analysisT {S : Type} (C : Chem S) (inputs : Inputs)
    (mech : Mechanism) (delta : ℝ) (n_reactions : Option ℕ) : Option SensReport × ℕ :=
  match n_reactions with
  | some n =>
    let base_params := List.replicate n (10 : ℝ) ++ List.replicate n (50 : ℝ)
    match sens_loopT C inputs mech base_params delta (List.range (2 * n)) with
    | (o, c) => (o.map (fun l => ⟨base_params, delta, n, l⟩), c)
  | none =>
    match (simulate C inputs mech none).toOption.bind unpack2 with
    | none => (none, 1)
    | some _ =>
      let n := 4
      let base_params := List.replicate n (10 : ℝ) ++ List.replicate n (50 : ℝ)
      match sens_loopT C inputs mech base_params delta (List.range (2 * n)) with
      | (o, c) => (o.map (fun l => ⟨base_params, delta, n, l⟩), 1 + c)

/-- The 2-slice config with the slice count changed to N = 3. -/
noncomputable def inputs3 : Inputs :=
  { inputs2 with number_of_slices := ⟨3, ""⟩ }

/-- C5 counterexample: on a valid 3-slice config the sensitivity engine
produces NO record at all — the `results_base, _ = simulate(…)` unpacking of
the length-3 trajectory fails — so the claimed per-slice sensitivity vectors
over the baseline z grid do not exist. -/
theorem sensitivity_counterexample :
    compute_sensitivity chemUnit inputs3 mech1 [10, 50] 0 (1 / 100) = none
    ∧ 1 ≤ inputs3.number_of_slices.value
    ∧ 0 < chemUnit.to_si inputs3.length := by
  refine ⟨rfl, by norm_num [inputs3, inputs2], by norm_num [chemUnit, inputs3, inputs2]⟩

/-- C5 amended.  The central-difference quotient is evaluated on the FIRST
slice record only, and only when the baseline, plus and minus trajectories
all have length exactly 2 (the destructuring requirement): the record then
holds the scalar quotients (f₀(p·(1+δ)) − f₀(p·(1−δ)))/(2·δ·p_j) of the
first-slice deposition rate and temperature, tagged with the baseline's
first-slice z; any other trajectory length yields no record. -/
theorem sensitivity_first_slice_quotient {S : Type} (C : Chem S) (inputs : Inputs)
    (mech : Mechanism) (base_params : List ℝ) (j : ℕ) (delta : ℝ)
    (b0 b1 p0 p1 m0 m1 : ℝ × S)
    (hb : simulate C inputs mech (some base_params) = Except.ok [b0, b1])
    (hp : simulate C inputs mech
      (some (base_params.set j (base_params.getD j 0 * (1 + delta)))) = Except.ok [p0, p1])
    (hm : simulate C inputs mech
      (some (base_params.set j (base_params.getD j 0 * (1 - delta)))) = Except.ok [m0, m1]) :
    compute_sensitivity C inputs mech base_params j delta =
      some { param_idx := j
             param_value := base_params.getD j 0
             deposition_sensitivity := (C.dep p0.2 - C.dep m0.2) /
               (2 * delta * base_params.getD j 0)
             temperature_sensitivity := (C.temp p0.2 - C.temp m0.2) /
               (2 * delta * base_params.getD j 0)
             z := b0.1 } := by
  simp only [compute_sensitivity, compute_sensitivityT, hb, hp, hm, Except.toOption]
  simp [unpack2]

/-- C5 witness: the amended statement evaluated with the trivial collaborator
on the 2-slice config at parameter index 0. -/
theorem sensitivity_first_slice_quotient_witness :
    compute_sensitivity chemUnit inputs2 mech1 [10, 50] 0 (1 / 100) =
      some { param_idx := 0
             param_value := (10 : ℝ)
             deposition_sensitivity := 0
             temperature_sensitivity := 0
             z := 0 } := by
  have h := sensitivity_first_slice_quotient chemUnit inputs2 mech1 [10, 50] 0 (1 / 100)
    ((0 : ℝ), ()) ((1 : ℝ), ()) ((0 : ℝ), ()) ((1 : ℝ), ()) ((0 : ℝ), ()) ((1 : ℝ), ())
    (by norm_num [simulate, march, chemUnit, inputs2, overlayStep])
    (by norm_num [simulate, march, chemUnit, inputs2, overlayStep])
    (by norm_num [simulate, march, chemUnit, inputs2, overlayStep])
  rw [h]
  norm_num [chemUnit]

/-- C6 counterexample: with R = 1 supplied (2 parameters) and every run
succeeding with a length-2 trajectory, the analysis performs 6 simulate
invocations — each parameter's sensitivity computation re-runs its own
baseline — and not the claimed 1 + 2·(2·1) = 5. -/
theorem sensitivity_call_count_counterexample :
    (run_sensitivity_analysisT chemUnit inputs2 mech1 (1 / 100) (some 1)).2 = 6
    ∧ (run_sensitivity_analysisT chemUnit inputs2 mech1 (1 / 100) (some 1)).2 ≠
        1 + 2 * (2 * 1) := by
  have h : (run_sensitivity_analysisT chemUnit inputs2 mech1 (1 / 100) (some 1)).2 = 6 := rfl
  exact ⟨h, by rw [h]; norm_num⟩

/-- C6 amended.  When every simulate call returns a length-2 trajectory, a
full analysis with caller-supplied reaction count R performs exactly 3·(2R)
simulate invocations: each of the 2R parameters' sensitivity computations
performs its own baseline run plus a plus- and a minus-perturbation run. -/
theorem sensitivity_call_count {S : Type} (C : Chem S) (inputs : Inputs) (mech : Mechanism)
    (delta : ℝ) (R : ℕ)
    (hok : ∀ kp : Option (List ℝ), ∃ a b, simulate C inputs mech kp = Except.ok [a, b]) :
    (run_sensitivity_analysisT C inputs mech delta (some R)).2 = 3 * (2 * R) := by
  have hcomp : ∀ (base : List ℝ) (j : ℕ),
      (compute_sensitivityT C inputs mech base j delta).2 = 3 ∧
      (compute_sensitivityT C inputs mech base j delta).1.isSome = true := by
    intro base j
    obtain ⟨a, b, hab⟩ := hok (some base)
    obtain ⟨ap, bp, habp⟩ := hok (some (base.set j (base.getD j 0 * (1 + delta))))
    obtain ⟨am, bm, habm⟩ := hok (some (base.set j (base.getD j 0 * (1 - delta))))
    constructor <;>
      · simp only [compute_sensitivityT, hab, habp, habm, Except.toOption]
        simp [unpack2]
  have hloop : ∀ (L : List ℕ) (base : List ℝ),
      (sens_loopT C inputs mech base delta L).2 = 3 * L.length := by
    intro L
    induction L with
    | nil => intro base; rfl
    | cons i rest ih =>
      intro base
      obtain ⟨hc2, hc1⟩ := hcomp base i
      rw [sens_loopT]
      cases hc : compute_sensitivityT C inputs mech base i delta with
      | mk o c =>
        rw [hc] at hc2 hc1
        cases o with
        | none => simp at hc1
        | some r =>
          cases hrest : sens_loopT C inputs mech base delta rest with
          | mk orest c2 =>
            have hc2' : c = 3 := hc2
            have ihr := ih base
            rw [hrest] at ihr
            simp only [hc, hrest]
            simp only [List.length_cons]
            have ihr' : c2 = 3 * rest.length := ihr
            omega
  rw [run_sensitivity_analysisT]
  cases hsl : sens_loopT C inputs mech
      (List.replicate R (10 : ℝ) ++ List.replicate R (50 : ℝ)) delta (List.range (2 * R)) with
  | mk o c =>
    have hl := hloop (List.range (2 * R)) (List.replicate R (10 : ℝ) ++ List.replicate R (50 : ℝ))
    rw [hsl] at hl
    simp only [hsl]
    simpa using hl

/-- C6 witness: the amended count at R = 1 on the always-converging 2-slice
instance: exactly 6 = 3·(2·1) simulate invocations. -/
theorem sensitivity_call_count_witness :
    (run_sensitivity_analysisT chemUnit inputs2 mech1 (1 / 100) (some 1)).2 = 3 * (2 * 1) :=
  sensitivity_call_count chemUnit inputs2 mech1 (1 / 100) 1
    (fun kp => ⟨((0 : ℝ), ()), ((1 : ℝ), ()),
      by norm_num [simulate, march, chemUnit, inputs2, overlayStep]⟩)

end PFR
